import Mathlib

/-!
Shallow embedding of `scripts/add_captures.py` (haunted-asylum-db).

The script syncs capture PDFs from a local folder into a `captures` table:
for each PDF it resolves the owning document via a persisted
stem-to-locator mapping (`mapping.json`), hashes the file, and upserts a
capture row keyed by `(document_id, content_hash)`.

Modelling conventions:
  * Python strings are Lean `String`s; `str.strip`/`str.lower`/`int(...)`
    are embedded over ASCII (`pyStrip`, `pyLower`, `pyInt`), matching
    CPython behaviour on the ASCII fragment (`int` accepts an optional
    sign and digits with single interior underscores).
  * Python `list` indexing (`docs[idx]`) is `pyIndex`, including negative
    indices counting from the end; `IndexError` is `none`.
  * `dict` values are association lists with unique keys in insertion
    order (`mapLookup` / `mapInsert`), as in CPython.
  * `input()` is modelled by popping a line from an explicit stdin
    stream; the uuid generator is a stream of fresh identifiers.
  * SQL string ordering and Python `sorted` are modelled by code-point
    order on strings (`strCode`, a C-collation reading of `ORDER BY`).
  * `sha256(path)` can raise an `OSError` mid-read; its outcome is
    carried by the file record as `Option String` (`none` = I/O error).
-/

/-- Whitespace stripped by `str.strip()` (ASCII fragment). -/
def isPySpace (c : Char) : Bool :=
  c = ' ' || c = '\t' || c = '\n' || c = '\r' || c.toNat = 11 || c.toNat = 12

/-- ASCII lowercasing of one character, as in `str.lower()` on ASCII. -/
def asciiLower (c : Char) : Char :=
  if 65 ≤ c.toNat && c.toNat ≤ 90 then Char.ofNat (c.toNat + 32) else c

/-- Embeds `str.strip()`: drop leading and trailing whitespace. -/
def pyStrip (s : String) : String :=
  ⟨((s.data.dropWhile isPySpace).reverse.dropWhile isPySpace).reverse⟩

/-- Embeds `str.lower()` (ASCII fragment). -/
def pyLower (s : String) : String :=
  ⟨s.data.map asciiLower⟩

/-- ASCII decimal digit test, as used by `int(...)`. -/
def pyIsDigit (c : Char) : Bool :=
  48 ≤ c.toNat && c.toNat ≤ 57

/-- Value of an ASCII digit. -/
def digitVal (c : Char) : Nat := c.toNat - 48

/-- Digit-run parser behind `int(...)`: after a first digit, further
digits may be separated by single underscores (PEP 515). -/
def pyDigitsAux : Nat → List Char → Option Nat
  | acc, [] => some acc
  | acc, '_' :: rest =>
    match rest with
    | c :: rest' =>
      if pyIsDigit c then pyDigitsAux (acc * 10 + digitVal c) rest' else none
    | [] => none
  | acc, c :: rest =>
    if pyIsDigit c then pyDigitsAux (acc * 10 + digitVal c) rest else none

/-- Nonempty digit run (first character must be a digit). -/
def pyDigits : List Char → Option Nat
  | [] => none
  | c :: rest => if pyIsDigit c then pyDigitsAux (digitVal c) rest else none

/-- Embeds `int(choice)` on an already-stripped string: optional sign
followed by a digit run; `none` models the raised `ValueError`. -/
def pyInt (s : String) : Option Int :=
  match s.data with
  | [] => none
  | c :: rest =>
    if c = '+' then (pyDigits rest).map (fun n => (n : Int))
    else if c = '-' then (pyDigits rest).map (fun n => -(n : Int))
    else (pyDigits (c :: rest)).map (fun n => (n : Int))

/-- Embeds Python list indexing `l[i]`: nonnegative indices from the
front, negative indices from the end; `none` models `IndexError`. -/
def pyIndex {α : Type} (l : List α) (i : Int) : Option α :=
  if 0 ≤ i then l[i.toNat]?
  else if 0 ≤ i + l.length then l[(i + l.length).toNat]?
  else none

/-- Code points of a string, the collation used to model SQL `ORDER BY`
on text and Python `sorted` on `str`. -/
def strCode (s : String) : List Nat := s.data.map Char.toNat

/-- ASCII letter test, used to state which prompt responses are plain
letter strings. -/
def isAsciiLetter (c : Char) : Bool :=
  (65 ≤ c.toNat && c.toNat ≤ 90) || (97 ≤ c.toNat && c.toNat ≤ 122)

/-- Embeds `stem in mapping` / `mapping[stem]` on a Python dict. -/
def mapLookup (m : List (String × String)) (k : String) : Option String :=
  match m with
  | [] => none
  | e :: rest => if e.1 == k then some e.2 else mapLookup rest k

/-- Embeds `mapping[stem] = url` on a Python dict: update in place keeps
the key's position, a new key is appended. -/
def mapInsert (m : List (String × String)) (k v : String) : List (String × String) :=
  match m with
  | [] => [(k, v)]
  | e :: rest => if e.1 == k then (k, v) :: rest else e :: mapInsert rest k v

/-- A candidate document row as produced by `get_site_documents`
(lines 78-81): identifier, locator, optional title, optional category. -/
structure Document where
  document_id : String
  url : String
  title : Option String
  category : Option String
  deriving DecidableEq

/-- Which branch of `resolve_document` produced the outcome.  The code
returns only `doc_id`-or-`None` but distinguishes the branches by its
print statements: the mapped fast path (line 94), a successful
interactive assignment (line 116), the explicit `s` skip (line 108),
and the `ValueError`/`IndexError` handler (line 119). -/
inductive ROutcome where
  | fastPath
  | assigned
  | explicitSkip
  | invalid
  deriving DecidableEq

/-- Result of one `resolve_document` call: the returned value, the
branch taken, the mapping dict afterwards, and whether `save_mapping`
was called (a durable write of the mapping file). -/
structure ResolveOut where
  result : Option String
  outcome : ROutcome
  mapping : List (String × String)
  saved : Bool
  deriving DecidableEq

/-- Interactive half of `resolve_document` (lines 97-119): prompt, read
one line, strip/lowercase it; `s` skips; otherwise parse an index into
`docs`, record and save the mapping on success; `ValueError` or
`IndexError` is caught and treated as a skip without mutating the
mapping.  Returns the outcome and the remaining stdin. -/
def interactiveResolve (stem : String) (docs : List Document)
    (mapping : List (String × String)) (stdin : List String) :
    ResolveOut × List String :=
  let choice := pyLower (pyStrip (stdin.headD ""))
  let rest := stdin.tail
  if choice = "s" then (⟨none, .explicitSkip, mapping, false⟩, rest)
  else
    match pyInt choice with
    | none => (⟨none, .invalid, mapping, false⟩, rest)
    | some idx =>
      match pyIndex docs idx with
      | none => (⟨none, .invalid, mapping, false⟩, rest)
      | some doc =>
        (⟨some doc.document_id, .assigned, mapInsert mapping stem doc.url, true⟩, rest)

/-- Embeds `resolve_document` (lines 84-119): if the stem is mapped and
a candidate carries the mapped locator, return its identifier without
prompting; a stale mapped locator prints a warning and falls through to
the interactive prompt, as does an unmapped stem. -/
def resolve_document (stem : String) (docs : List Document)
    (mapping : List (String × String)) (stdin : List String) :
    ResolveOut × List String :=
  match mapLookup mapping stem with
  | some url =>
    match docs.find? (fun d => d.url == url) with
    | some d => (⟨some d.document_id, .fastPath, mapping, false⟩, stdin)
    | none => interactiveResolve stem docs mapping stdin
  | none => interactiveResolve stem docs mapping stdin

/-- Key order used by `json.dump(..., sort_keys=True)` in `save_mapping`
(line 59): entries sorted by key, code-point order. -/
def mappingKeyLe (a b : String × String) : Prop :=
  strCode a.1 ≤ strCode b.1

instance : DecidableRel mappingKeyLe := fun a b => by
  unfold mappingKeyLe; infer_instance

/-- Entry list written by `save_mapping` (lines 56-60): the full table,
keys in sorted order. -/
def save_mapping_entries (mapping : List (String × String)) :
    List (String × String) :=
  List.insertionSort mappingKeyLe mapping

/-- On-disk states of `mapping.json` observable while `save_mapping`
runs: `open(mapping_file, "w")` truncates the file before `json.dump`
writes the new content, so the sequence of states is: the prior
content, the truncated (empty) file, the freshly serialized table. -/
def save_mapping_trace (prior mapping : List (String × String)) :
    List (List (String × String)) :=
  [prior, [], save_mapping_entries mapping]

/-- A row of the `sites` table as used by the catalog query. -/
structure SiteRow where
  site_id : String
  site_name : String
  official_site_url : String
  deriving DecidableEq

/-- A row of the `documents` table as used by the catalog query. -/
structure DocRow where
  document_id : String
  site_id : String
  url : String
  title : Option String
  official_category : Option String
  deriving DecidableEq

/-- Case-insensitive substring test: `column ILIKE '%needle%'` for a
needle without wildcard characters. -/
def containsCI (haystack needle : String) : Bool :=
  decide ((pyLower needle).data <:+: (pyLower haystack).data)

/-- Embeds `site_folder.replace('-', ' ')` (line 74). -/
def pyReplaceHyphen (s : String) : String :=
  ⟨s.data.map (fun c => if c = '-' then ' ' else c)⟩

/-- WHERE clause of the catalog query (lines 70-75): the site's name
matches the folder with hyphens read as spaces, or the site's URL
matches the folder, both case-insensitive substring matches. -/
def siteMatches (folder : String) (s : SiteRow) : Bool :=
  containsCI s.site_name (pyReplaceHyphen folder) ||
    containsCI s.official_site_url folder

/-- Sort key of `ORDER BY d.official_category NULLS LAST, d.url`
(line 72): categorized rows first in category order, uncategorized rows
last, ties broken by locator; strings compare by code points. -/
def docKey (cat : Option String) (url : String) :
    Lex (Nat × Lex (List Nat × List Nat)) :=
  match cat with
  | some c => toLex (0, toLex (strCode c, strCode url))
  | none => toLex (1, toLex ([], strCode url))

/-- Row order realizing the `ORDER BY` of the catalog query. -/
def docRowLeProp (a b : DocRow) : Prop :=
  docKey a.official_category a.url ≤ docKey b.official_category b.url

instance : DecidableRel docRowLeProp := fun a b => by
  unfold docRowLeProp; infer_instance

/-- Projection of a result row to the dict built on lines 78-81. -/
def toDocument (r : DocRow) : Document :=
  ⟨r.document_id, r.url, r.title, r.official_category⟩

/-- Embeds `get_site_documents` (lines 63-81): join documents with
sites on `site_id`, keep rows whose site matches the folder, order by
`(official_category NULLS LAST, url)`, and project each row. -/
def get_site_documents (sites : List SiteRow) (docTable : List DocRow)
    (folder : String) : List Document :=
  let rows := docTable.filter
    (fun d => sites.any (fun s => s.site_id == d.site_id && siteMatches folder s))
  (List.insertionSort docRowLeProp rows).map toDocument

/-- A row of the `captures` table (columns named in lines 204-207). -/
structure Capture where
  capture_id : String
  document_id : String
  captured_by : String
  capture_ts : String
  kind : String
  http_status : Nat
  file_path : String
  content_hash : String
  notes : Option String
  deriving DecidableEq

/-- Conflict test against the `(document_id, content_hash)` uniqueness
key (line 212). -/
def keyEq (c : Capture) (d h : String) : Bool :=
  c.document_id == d && c.content_hash == h

/-- Embeds the upsert statement (lines 202-223): insert the row; on
conflict with the `(document_id, content_hash)` key, update only
`file_path` and `capture_ts` of the existing row.  Returns the new
table, the effective `capture_id` (the existing row's on conflict), and
the `(xmax = 0)` indicator, which is `true` exactly on the insert
branch. -/
def upsert (table : List Capture) (row : Capture) :
    List Capture × String × Bool :=
  match table.find? (fun c => keyEq c row.document_id row.content_hash) with
  | some c =>
    (table.map (fun x =>
        if keyEq x row.document_id row.content_hash then
          { x with file_path := row.file_path, capture_ts := row.capture_ts }
        else x),
     c.capture_id, false)
  | none => (table ++ [row], row.capture_id, true)

/-- The uniqueness invariant enforced by the conflict target: no two
rows share a `(document_id, content_hash)` pair. -/
def NodupKeys (table : List Capture) : Prop :=
  table.Pairwise (fun a b =>
    a.document_id ≠ b.document_id ∨ a.content_hash ≠ b.content_hash)

instance (table : List Capture) : Decidable (NodupKeys table) := by
  unfold NodupKeys; infer_instance

/-- Hardcoded `captured_by` actor (line 33). -/
def RESEARCHER_ID : String := "36339282-36e1-41b8-ad8b-bba0fff72e64"

/-- One PDF of the run: its stem, its home-relative path (line 192),
and the outcome of `sha256(pdf)` — `some` digest, or `none` when the
file became unreadable mid-read and `sha256` raised. -/
structure CaptureFile where
  stem : String
  relPath : String
  sha256Result : Option String
  deriving DecidableEq

/-- State threaded through the per-file loop of `main` (lines 175-232):
the in-memory mapping dict, the committed `captures` table, the three
counters, plus observability counters (mapping-file saves, write
statements issued to the captures store) and the two input streams
(stdin lines, fresh uuids). -/
structure RunState where
  mapping : List (String × String)
  table : List Capture
  inserted : Nat
  updated : Nat
  skipped : Nat
  mappingSaves : Nat
  dbWrites : Nat
  stdin : List String
  uuids : List String
  deriving DecidableEq

/-- Initial state of a run: counters at zero. -/
def initState (mapping : List (String × String)) (table : List Capture)
    (stdin uuids : List String) : RunState :=
  ⟨mapping, table, 0, 0, 0, 0, 0, stdin, uuids⟩

/-- The capture row built for one file (lines 204-220): fresh uuid,
resolved document, the constant researcher, the run's timestamp, kind
`pdf`, status 200, the relative path, the digest, no notes. -/
def captureRow (uuid docId ts relPath hv : String) : Capture :=
  ⟨uuid, docId, RESEARCHER_ID, ts, "pdf", 200, relPath, hv, none⟩

/-- Embeds the per-file loop of `main` (lines 180-232) together with
its exception handler (lines 234-237).  Per file: resolve (the mapping
dict and any saves persist); a falsy `doc_id` counts as skipped; then
hash — if `sha256` raises, the handler rolls back the current
transaction (nothing of the current file is committed) and the whole
run exits, which `.error` models, carrying the state of committed work
and the failing stem; in dry-run mode count a would-be insert and write
nothing; otherwise upsert, commit, and count the branch that fired. -/
def runSync (docs : List Document) (dryRun : Bool) (ts : String) :
    List CaptureFile → RunState → Except (RunState × String) RunState
  | [], st => .ok st
  | f :: rest, st =>
    let pr := resolve_document f.stem docs st.mapping st.stdin
    let r := pr.1
    let st1 : RunState :=
      { st with mapping := r.mapping, stdin := pr.2,
                mappingSaves := st.mappingSaves + (if r.saved then 1 else 0) }
    match r.result with
    | none => runSync docs dryRun ts rest { st1 with skipped := st1.skipped + 1 }
    | some docId =>
      if docId = "" then
        runSync docs dryRun ts rest { st1 with skipped := st1.skipped + 1 }
      else
        match f.sha256Result with
        | none => .error (st1, f.stem)
        | some hv =>
          if dryRun then
            runSync docs dryRun ts rest { st1 with inserted := st1.inserted + 1 }
          else
            let row := captureRow (st1.uuids.headD "") docId ts f.relPath hv
            let up := upsert st1.table row
            let st2 : RunState :=
              { st1 with table := up.1, uuids := st1.uuids.tail,
                         dbWrites := st1.dbWrites + 1 }
            runSync docs dryRun ts rest
              (if up.2.2 then { st2 with inserted := st2.inserted + 1 }
               else { st2 with updated := st2.updated + 1 })

/-- A file whose stem fast-resolves through the mapping to a candidate
with a falsy-free identifier, and which hashes without error. -/
def fastOkFile (docs : List Document) (mapping : List (String × String))
    (f : CaptureFile) : Bool :=
  (match mapLookup mapping f.stem with
   | some u =>
     match docs.find? (fun d => d.url == u) with
     | some d => !(d.document_id == "")
     | none => false
   | none => false)
  && f.sha256Result.isSome

/-- The `(document_id, content_hash)` key a fast-resolving file hits. -/
def fastKey (docs : List Document) (mapping : List (String × String))
    (f : CaptureFile) : Option (String × String) :=
  match mapLookup mapping f.stem, f.sha256Result with
  | some u, some hv => (docs.find? (fun d => d.url == u)).map
      (fun d => (d.document_id, hv))
  | _, _ => none

/-- Whether some row of the table carries the given key. -/
def keyMem (table : List Capture) (d h : String) : Bool :=
  table.any (fun c => keyEq c d h)

/-- The file's fast key, when it has one, is already in the table. -/
def presentKey (table : List Capture) (docs : List Document)
    (mapping : List (String × String)) (f : CaptureFile) : Bool :=
  match fastKey docs mapping f with
  | some k => keyMem table k.1 k.2
  | none => true

/-- Every file of the list resolves (under the evolving mapping and
stdin) to a non-falsy identifier and hashes without error. -/
def allResolvable (docs : List Document) :
    List CaptureFile → List (String × String) → List String → Bool
  | [], _, _ => true
  | f :: rest, m, s =>
    let pr := resolve_document f.stem docs m s
    (match pr.1.result with
     | some id => !(id == "")
     | none => false)
    && f.sha256Result.isSome
    && allResolvable docs rest pr.1.mapping pr.2

/-- Replay of the resolutions alone: final mapping, number of
`save_mapping` calls, remaining stdin. -/
def resolveFold (docs : List Document) :
    List CaptureFile → List (String × String) → List String →
    List (String × String) × Nat × List String
  | [], m, s => (m, 0, s)
  | f :: rest, m, s =>
    let pr := resolve_document f.stem docs m s
    let tail := resolveFold docs rest pr.1.mapping pr.2
    (tail.1, (if pr.1.saved then 1 else 0) + tail.2.1, tail.2.2)

/-! Helper lemmas about the Python-fragment embedding. -/

/-- Updating a dict key makes a subsequent lookup of that key return the
new value. -/
theorem mapLookup_mapInsert_self (m : List (String × String)) (k v : String) :
    mapLookup (mapInsert m k v) k = some v := by
  induction m with
  | nil => simp [mapInsert, mapLookup]
  | cons e rest ih =>
    by_cases h : (e.1 == k) = true
    · simp [mapInsert, h, mapLookup]
    · simp [mapInsert, h, mapLookup, ih]

/-- A successful Python indexing returns an element of the list. -/
theorem pyIndex_mem {α : Type} (l : List α) (i : Int) (a : α)
    (h : pyIndex l i = some a) : a ∈ l := by
  unfold pyIndex at h
  split at h
  · rcases List.getElem?_eq_some.mp h with ⟨hlt, rfl⟩
    exact List.getElem_mem hlt
  · split at h
    · rcases List.getElem?_eq_some.mp h with ⟨hlt, rfl⟩
      exact List.getElem_mem hlt
    · cases h

/-- Python indexing raises `IndexError` exactly outside
`[-len l, len l)`; here the "raises" direction. -/
theorem pyIndex_eq_none {α : Type} (l : List α) (i : Int)
    (h : i < -(l.length : Int) ∨ (l.length : Int) ≤ i) : pyIndex l i = none := by
  unfold pyIndex
  split
  · apply List.getElem?_eq_none
    omega
  · split
    · apply List.getElem?_eq_none
      omega
    · rfl

/-- An ASCII letter is not a decimal digit. -/
theorem letter_not_digit (c : Char) (h : isAsciiLetter c = true) :
    pyIsDigit c = false := by
  simp only [isAsciiLetter, Bool.or_eq_true, Bool.and_eq_true,
    decide_eq_true_eq] at h
  rw [Bool.eq_false_iff]
  intro h2
  simp only [pyIsDigit, Bool.and_eq_true, decide_eq_true_eq] at h2
  omega

/-- A nonempty all-letter string is rejected by `int(...)`. -/
theorem pyInt_eq_none_of_alpha (s : String) (hne : s.data ≠ [])
    (h : ∀ c ∈ s.data, isAsciiLetter c = true) : pyInt s = none := by
  rw [pyInt]
  cases hd : s.data with
  | nil => exact absurd hd hne
  | cons c rest =>
    have hc : isAsciiLetter c = true := h c (hd ▸ List.mem_cons_self c rest)
    have hplus : ¬ c = '+' := by rintro rfl; exact absurd hc (by decide)
    have hminus : ¬ c = '-' := by rintro rfl; exact absurd hc (by decide)
    simp only [if_neg hplus, if_neg hminus]
    have hdig : pyIsDigit c = false := letter_not_digit c hc
    simp [pyDigits, hdig]

/-- When candidate locators are pairwise distinct, searching for a
member's locator finds exactly that member. -/
theorem find?_url_of_nodup (docs : List Document) (d : Document)
    (hnd : (docs.map (fun x => x.url)).Nodup) (hmem : d ∈ docs) :
    docs.find? (fun x => x.url == d.url) = some d := by
  induction docs with
  | nil => cases hmem
  | cons a t ih =>
    rcases List.mem_cons.mp hmem with rfl | hmem'
    · rw [List.find?_cons_of_pos _ (by simp)]
    · have ha : a.url ≠ d.url := by
        have hnot : a.url ∉ t.map (fun x => x.url) := (List.nodup_cons.mp hnd).1
        intro he
        exact hnot (he ▸ List.mem_map_of_mem _ hmem')
      rw [List.find?_cons_of_neg _ (by simp [ha])]
      exact ih (List.nodup_cons.mp hnd).2 hmem'

/-- Inversion of a `resolve_document` call that ended in the
interactive-assignment branch: some index was parsed, it selected a
candidate, and the result records exactly that candidate. -/
theorem resolve_assigned_inv (stem : String) (docs : List Document)
    (m0 : List (String × String)) (stdin : List String) (r : ResolveOut)
    (rest : List String)
    (heq : resolve_document stem docs m0 stdin = (r, rest))
    (hout : r.outcome = .assigned) :
    ∃ i doc, pyInt (pyLower (pyStrip (stdin.headD ""))) = some i ∧
      pyIndex docs i = some doc ∧
      r = ⟨some doc.document_id, .assigned, mapInsert m0 stem doc.url, true⟩ ∧
      rest = stdin.tail := by
  have hI : interactiveResolve stem docs m0 stdin = (r, rest) := by
    unfold resolve_document at heq
    split at heq
    · split at heq
      · cases heq; cases hout
      · exact heq
    · exact heq
  simp only [interactiveResolve] at hI
  split at hI
  · cases hI; cases hout
  · split at hI
    · cases hI; cases hout
    · split at hI
      · cases hI; cases hout
      · rename_i xo i hi xd doc hix
        cases hI
        exact ⟨i, doc, hi, hix, rfl, rfl⟩

/-- C10: at the interactive prompt (unmapped stem), an input whose
stripped, ASCII-lowercased form is `s` is the explicit skip signal: the
resolver returns the skip outcome without mutating or saving the
mapping; a nonempty all-letter input whose normalized form is not `s`
is rejected by `int(...)` and handled as invalid input (the
`ValueError` branch), also without mutating the mapping. -/
theorem skip_signal_normalization (stem : String) (docs : List Document)
    (mapping : List (String × String)) (input : String) (rest : List String)
    (h0 : mapLookup mapping stem = none) :
    (pyLower (pyStrip input) = "s" →
      resolve_document stem docs mapping (input :: rest) =
        (⟨none, .explicitSkip, mapping, false⟩, rest)) ∧
    (pyLower (pyStrip input) ≠ "s" →
      (pyLower (pyStrip input)).data ≠ [] →
      (∀ c ∈ (pyLower (pyStrip input)).data, isAsciiLetter c = true) →
      resolve_document stem docs mapping (input :: rest) =
        (⟨none, .invalid, mapping, false⟩, rest)) := by
  constructor
  · intro hs
    simp [resolve_document, h0, interactiveResolve, hs]
  · intro hns hne hall
    have hpi : pyInt (pyLower (pyStrip input)) = none :=
      pyInt_eq_none_of_alpha _ hne hall
    simp [resolve_document, h0, interactiveResolve, hns, hpi]

/-- Witness for C10 at concrete inputs: `" S "` normalizes to the skip
signal; `"abc"` is an all-letter string handled as invalid input. -/
theorem skip_signal_normalization_witness :
    resolve_document "north" [⟨"doc-0", "https://e.org/0", none, none⟩] []
        [" S "] =
      (⟨none, .explicitSkip, [], false⟩, []) ∧
    resolve_document "north" [⟨"doc-0", "https://e.org/0", none, none⟩] []
        ["abc"] =
      (⟨none, .invalid, [], false⟩, []) :=
  ⟨(skip_signal_normalization "north" [⟨"doc-0", "https://e.org/0", none, none⟩]
      [] " S " [] (by decide)).1 (by decide),
   (skip_signal_normalization "north" [⟨"doc-0", "https://e.org/0", none, none⟩]
      [] "abc" [] (by decide)).2 (by decide) (by decide) (by decide)⟩

/-- C2 counterexample: the input `-1` is an integer outside
`[0, len(candidates))`, yet with one candidate the resolver does not
skip: Python's negative indexing accepts `docs[-1]`, the candidate is
assigned, and the mapping is mutated and saved. -/
theorem resolve_negative_index_counterexample :
    (resolve_document "north" [⟨"doc-0", "https://e.org/0", none, none⟩] []
        ["-1"]).1 =
      ⟨some "doc-0", .assigned, [("north", "https://e.org/0")], true⟩ ∧
    (resolve_document "north" [⟨"doc-0", "https://e.org/0", none, none⟩] []
        ["-1"]).1.mapping ≠ [] ∧
    (-1 : Int) < 0 := by
  decide

/-- C2 amended: a prompt response that is non-numeric, or parses to an
integer outside `[-len(candidates), len(candidates))` (Python index
semantics: negative indices down to `-len` are valid and select from
the end), is handled as invalid input: the resolver returns the skip
outcome and the mapping is neither changed nor saved. -/
theorem resolve_invalid_input_amended (stem : String) (docs : List Document)
    (mapping : List (String × String)) (input : String) (rest : List String)
    (h0 : mapLookup mapping stem = none)
    (hns : pyLower (pyStrip input) ≠ "s")
    (hbad : pyInt (pyLower (pyStrip input)) = none ∨
      ∃ i, pyInt (pyLower (pyStrip input)) = some i ∧
        (i < -(docs.length : Int) ∨ (docs.length : Int) ≤ i)) :
    resolve_document stem docs mapping (input :: rest) =
      (⟨none, .invalid, mapping, false⟩, rest) := by
  rcases hbad with hb | ⟨i, hi, hrange⟩
  · simp [resolve_document, h0, interactiveResolve, hns, hb]
  · simp [resolve_document, h0, interactiveResolve, hns, hi,
      pyIndex_eq_none docs i hrange]

/-- Witness for the amended C2: with one candidate, the out-of-range
index `7` and the non-numeric `"x!"` both leave the mapping alone. -/
theorem resolve_invalid_input_amended_witness :
    resolve_document "north" [⟨"doc-0", "https://e.org/0", none, none⟩] []
        ["7"] =
      (⟨none, .invalid, [], false⟩, []) :=
  resolve_invalid_input_amended "north"
    [⟨"doc-0", "https://e.org/0", none, none⟩] [] "7" [] (by decide)
    (by decide) (Or.inr ⟨7, by decide, by decide⟩)

/-- C4: if the stem is mapped and its stored locator is carried by a
candidate, the resolver returns that candidate's identifier on the
non-interactive fast path — no input is consumed, the mapping is
neither changed nor saved; consequently (candidate locators being
distinct) once a run's interactive resolution assigns a stem to a
document, resolving the same stem against the updated mapping returns
the same document without prompting. -/
theorem resolve_fast_path_and_persistence :
    (∀ (stem : String) (docs : List Document)
       (mapping : List (String × String)) (stdin : List String)
       (u : String) (d : Document),
       mapLookup mapping stem = some u →
       docs.find? (fun x => x.url == u) = some d →
       resolve_document stem docs mapping stdin =
         (⟨some d.document_id, .fastPath, mapping, false⟩, stdin)) ∧
    (∀ (stem : String) (docs : List Document)
       (m0 : List (String × String)) (stdin stdin2 rest : List String)
       (r : ResolveOut),
       (docs.map (fun x => x.url)).Nodup →
       resolve_document stem docs m0 stdin = (r, rest) →
       r.outcome = .assigned →
       ∃ d ∈ docs, r.result = some d.document_id ∧
         resolve_document stem docs r.mapping stdin2 =
           (⟨some d.document_id, .fastPath, r.mapping, false⟩, stdin2)) := by
  constructor
  · intro stem docs mapping stdin u d h1 h2
    simp [resolve_document, h1, h2]
  · intro stem docs m0 stdin stdin2 rest r hnd heq hout
    obtain ⟨i, doc, hi, hix, hr, hrest⟩ :=
      resolve_assigned_inv stem docs m0 stdin r rest heq hout
    have hmem : doc ∈ docs := pyIndex_mem docs i doc hix
    refine ⟨doc, hmem, by rw [hr], ?_⟩
    have hl : mapLookup r.mapping stem = some doc.url := by
      rw [hr]
      exact mapLookup_mapInsert_self m0 stem doc.url
    have hfind : docs.find? (fun x => x.url == doc.url) = some doc :=
      find?_url_of_nodup docs doc hnd hmem
    simp [resolve_document, hl, hfind]

/-- Witness for C4: the fast path at a mapped stem, and persistence
after the interactive run that assigned `"north"` via input `"0"`. -/
theorem resolve_fast_path_and_persistence_witness :
    resolve_document "north" [⟨"doc-0", "https://e.org/0", none, none⟩]
        [("north", "https://e.org/0")] ["9"] =
      (⟨some "doc-0", .fastPath, [("north", "https://e.org/0")], false⟩,
        ["9"]) ∧
    ∃ d ∈ [(⟨"doc-0", "https://e.org/0", none, none⟩ : Document)],
      (resolve_document "north" [⟨"doc-0", "https://e.org/0", none, none⟩] []
          ["0"]).1.result = some d.document_id ∧
      resolve_document "north" [⟨"doc-0", "https://e.org/0", none, none⟩]
          (resolve_document "north" [⟨"doc-0", "https://e.org/0", none, none⟩]
            [] ["0"]).1.mapping [] =
        (⟨some d.document_id, .fastPath,
          (resolve_document "north" [⟨"doc-0", "https://e.org/0", none, none⟩]
            [] ["0"]).1.mapping, false⟩, []) :=
  ⟨resolve_fast_path_and_persistence.1 "north"
      [⟨"doc-0", "https://e.org/0", none, none⟩] [("north", "https://e.org/0")]
      ["9"] "https://e.org/0" ⟨"doc-0", "https://e.org/0", none, none⟩
      (by decide) (by decide),
   resolve_fast_path_and_persistence.2 "north"
      [⟨"doc-0", "https://e.org/0", none, none⟩] [] ["0"] [] []
      (resolve_document "north" [⟨"doc-0", "https://e.org/0", none, none⟩] []
        ["0"]).1
      (by decide) rfl (by decide)⟩

/-- C5: a mapped stem whose stored locator matches no candidate does
not fail: the resolver falls through to the interactive prompt, and a
successful selection overwrites the stale entry with the chosen
candidate's locator and saves the mapping. -/
theorem resolve_stale_mapping_repair (stem : String) (docs : List Document)
    (mapping : List (String × String)) (stdin : List String) (u : String)
    (h1 : mapLookup mapping stem = some u)
    (h2 : docs.find? (fun d => d.url == u) = none) :
    resolve_document stem docs mapping stdin =
      interactiveResolve stem docs mapping stdin ∧
    (∀ (input : String) (rest : List String) (i : Int) (doc : Document),
      stdin = input :: rest →
      pyLower (pyStrip input) ≠ "s" →
      pyInt (pyLower (pyStrip input)) = some i →
      pyIndex docs i = some doc →
      resolve_document stem docs mapping stdin =
        (⟨some doc.document_id, .assigned, mapInsert mapping stem doc.url,
          true⟩, rest) ∧
      mapLookup (mapInsert mapping stem doc.url) stem = some doc.url) := by
  constructor
  · simp [resolve_document, h1, h2]
  · rintro input rest i doc rfl hns hi hix
    constructor
    · simp [resolve_document, h1, h2, interactiveResolve, hns, hi, hix]
    · exact mapLookup_mapInsert_self mapping stem doc.url

/-- Witness for C5: the stem is mapped to a locator absent from the
candidate list; selection `"0"` repairs the stale entry. -/
theorem resolve_stale_mapping_repair_witness :
    resolve_document "north" [⟨"doc-1", "https://e.org/new", none, none⟩]
        [("north", "https://e.org/old")] ["0"] =
      interactiveResolve "north" [⟨"doc-1", "https://e.org/new", none, none⟩]
        [("north", "https://e.org/old")] ["0"] ∧
    resolve_document "north" [⟨"doc-1", "https://e.org/new", none, none⟩]
        [("north", "https://e.org/old")] ["0"] =
      (⟨some "doc-1", .assigned, [("north", "https://e.org/new")], true⟩,
        []) ∧
    mapLookup [("north", "https://e.org/new")] "north" =
      some "https://e.org/new" :=
  ⟨(resolve_stale_mapping_repair "north"
      [⟨"doc-1", "https://e.org/new", none, none⟩]
      [("north", "https://e.org/old")] ["0"] "https://e.org/old"
      (by decide) (by decide)).1,
   ((resolve_stale_mapping_repair "north"
      [⟨"doc-1", "https://e.org/new", none, none⟩]
      [("north", "https://e.org/old")] ["0"] "https://e.org/old"
      (by decide) (by decide)).2 "0" [] 0
      ⟨"doc-1", "https://e.org/new", none, none⟩ rfl (by decide) (by decide)
      (by decide)).1,
   ((resolve_stale_mapping_repair "north"
      [⟨"doc-1", "https://e.org/new", none, none⟩]
      [("north", "https://e.org/old")] ["0"] "https://e.org/old"
      (by decide) (by decide)).2 "0" [] 0
      ⟨"doc-1", "https://e.org/new", none, none⟩ rfl (by decide) (by decide)
      (by decide)).2⟩

/-! Lemmas about the upsert primitive. -/

/-- Updating `file_path`/`capture_ts` leaves the conflict key alone. -/
theorem keyEq_update (x row : Capture) (d h : String) :
    keyEq { x with file_path := row.file_path, capture_ts := row.capture_ts }
      d h = keyEq x d h := rfl

/-- Under the uniqueness invariant, the row found for a key is the only
row carrying that key. -/
theorem find?_keyEq_unique (d h : String) :
    ∀ (T : List Capture) (c : Capture), NodupKeys T →
      T.find? (fun x => keyEq x d h) = some c →
      ∀ x ∈ T, keyEq x d h = true → x = c := by
  intro T
  induction T with
  | nil => intro c _ hf; cases hf
  | cons a t ih =>
    intro c hnd hf x hx hkx
    rcases List.mem_cons.mp hx with rfl | hx'
    · have hstep : List.find? (fun y => keyEq y d h) (x :: t) = some x :=
        List.find?_cons_of_pos _ hkx
      rw [hstep] at hf
      exact Option.some.inj hf
    · by_cases hpa : keyEq a d h = true
      · exfalso
        have hrel := (List.pairwise_cons.mp hnd).1 x hx'
        simp only [keyEq, Bool.and_eq_true, beq_iff_eq] at hpa hkx
        rcases hrel with hne | hne
        · exact hne (hpa.1.trans hkx.1.symm)
        · exact hne (hpa.2.trans hkx.2.symm)
      · have hstep : List.find? (fun y => keyEq y d h) (a :: t) =
            List.find? (fun y => keyEq y d h) t :=
          List.find?_cons_of_neg _ (by simpa using hpa)
        rw [hstep] at hf
        exact ih c (List.pairwise_cons.mp hnd).2 hf x hx' hkx

/-- C6: on a key conflict (under the table's uniqueness invariant) the
upsert reports the update branch, returns the existing row's
identifier, and rewrites the table so that the conflicting row keeps
every field except `file_path` and `capture_ts` while every other row
is untouched; with no conflict it reports the insert branch, returns
the new row's identifier, and appends the row. -/
theorem upsert_update_frame (T : List Capture) (row : Capture)
    (hnd : NodupKeys T) :
    (∀ c, T.find? (fun x => keyEq x row.document_id row.content_hash) = some c →
      (upsert T row).2.2 = false ∧
      (upsert T row).2.1 = c.capture_id ∧
      ({ c with file_path := row.file_path, capture_ts := row.capture_ts } ∈
        (upsert T row).1) ∧
      (∀ x ∈ T, keyEq x row.document_id row.content_hash = false →
        x ∈ (upsert T row).1) ∧
      (∀ y ∈ (upsert T row).1,
        y = { c with file_path := row.file_path, capture_ts := row.capture_ts } ∨
        (y ∈ T ∧ keyEq y row.document_id row.content_hash = false)) ∧
      (upsert T row).1.length = T.length) ∧
    (T.find? (fun x => keyEq x row.document_id row.content_hash) = none →
      (upsert T row).2.2 = true ∧
      (upsert T row).2.1 = row.capture_id ∧
      (upsert T row).1 = T ++ [row]) := by
  constructor
  · intro c hfc
    have hcmem : c ∈ T := List.mem_of_find?_eq_some hfc
    have hck : keyEq c row.document_id row.content_hash = true := by
      have h0 := List.find?_some hfc
      simpa using h0
    unfold upsert
    rw [hfc]
    refine ⟨rfl, rfl, ?_, ?_, ?_, by simp⟩
    · exact List.mem_map.mpr ⟨c, hcmem, by simp [hck]⟩
    · intro x hx hkx
      exact List.mem_map.mpr ⟨x, hx, by simp [hkx]⟩
    · intro y hy
      obtain ⟨x, hx, hxy⟩ := List.mem_map.mp hy
      by_cases hkx : keyEq x row.document_id row.content_hash = true
      · left
        have hxc := find?_keyEq_unique row.document_id row.content_hash T c
          hnd hfc x hx hkx
        rw [← hxy]
        simp only [hkx, if_true]
        rw [hxc]
      · have hkxf : keyEq x row.document_id row.content_hash = false :=
          Bool.eq_false_iff.mpr hkx
        right
        exact ⟨by rw [← hxy]; simpa [hkxf] using hx, by rw [← hxy]; simp [hkxf]⟩
  · intro hfn
    unfold upsert
    rw [hfn]
    exact ⟨rfl, rfl, rfl⟩

/-- Witness for C6 at a one-row table: a conflicting row updates path
and timestamp in place, keeping the original identifier and actor, and
a fresh key appends. -/
theorem upsert_update_frame_witness :
    (upsert [⟨"c1", "D", "A", "t1", "pdf", 200, "p1", "H", none⟩]
        ⟨"c2", "D", "A2", "t2", "pdf", 200, "p2", "H", none⟩).2.2 = false ∧
    (upsert [⟨"c1", "D", "A", "t1", "pdf", 200, "p1", "H", none⟩]
        ⟨"c2", "D", "A2", "t2", "pdf", 200, "p2", "H", none⟩).2.1 = "c1" ∧
    (⟨"c1", "D", "A", "t2", "pdf", 200, "p2", "H", none⟩ : Capture) ∈
      (upsert [⟨"c1", "D", "A", "t1", "pdf", 200, "p1", "H", none⟩]
        ⟨"c2", "D", "A2", "t2", "pdf", 200, "p2", "H", none⟩).1 ∧
    (upsert [⟨"c1", "D", "A", "t1", "pdf", 200, "p1", "H", none⟩]
        ⟨"c3", "D", "A", "t3", "pdf", 200, "p3", "H3", none⟩).2.2 = true := by
  have h1 := (upsert_update_frame
    [⟨"c1", "D", "A", "t1", "pdf", 200, "p1", "H", none⟩]
    ⟨"c2", "D", "A2", "t2", "pdf", 200, "p2", "H", none⟩ (by decide)).1
    ⟨"c1", "D", "A", "t1", "pdf", 200, "p1", "H", none⟩ (by decide)
  have h2 := (upsert_update_frame
    [⟨"c1", "D", "A", "t1", "pdf", 200, "p1", "H", none⟩]
    ⟨"c3", "D", "A", "t3", "pdf", 200, "p3", "H3", none⟩ (by decide)).2
    (by decide)
  exact ⟨h1.1, h1.2.1, h1.2.2.1, h2.1⟩

/-- C8 counterexample: the prior file holds the entry `("a", "u")`; in
the write trace of `save_mapping` the post-truncation state is empty —
neither the prior nor the new content — so an interruption inside the
write loses the previously saved entry; the write window is not
atomic. -/
theorem save_mapping_truncation_counterexample :
    ("a", "u") ∈ ([("a", "u")] : List (String × String)) ∧
    [] ∈ save_mapping_trace [("a", "u")] [("a", "u"), ("b", "v")] ∧
    ([] : List (String × String)) ≠ [("a", "u")] ∧
    ([] : List (String × String)) ≠
      save_mapping_entries [("a", "u"), ("b", "v")] := by
  decide

/-- C8 amended: `save_mapping` serializes the full table with keys in
sorted order and the final on-disk state is exactly that serialization,
independent of the prior content (a full overwrite); but the write is
not atomic: `open(..., "w")` truncates first, so the trace of on-disk
states passes through the empty file before the new content lands. -/
theorem save_mapping_sorted_amended (prior mapping : List (String × String)) :
    List.Sorted mappingKeyLe (save_mapping_entries mapping) ∧
    (save_mapping_entries mapping).Perm mapping ∧
    save_mapping_trace prior mapping =
      [prior, [], save_mapping_entries mapping] := by
  refine ⟨?_, List.perm_insertionSort _ _, rfl⟩
  haveI hT : IsTotal (String × String) mappingKeyLe :=
    ⟨fun a b => le_total (strCode a.1) (strCode b.1)⟩
  haveI hR : IsTrans (String × String) mappingKeyLe :=
    ⟨fun a b c hab hbc => le_trans hab hbc⟩
  exact List.sorted_insertionSort mappingKeyLe mapping

/-- C9: the catalog accessor returns exactly the site's matching rows
(as a permutation of the filtered join), sorted by category ascending
with uncategorized rows last and ties broken by locator ascending; as a
pure function of the catalog state it is deterministic, so the
resolver's sequential numbering of this list is stable. -/
theorem get_site_documents_ordering (sites : List SiteRow)
    (docTable : List DocRow) (folder : String) :
    List.Sorted
      (fun a b : Document => docKey a.category a.url ≤ docKey b.category b.url)
      (get_site_documents sites docTable folder) ∧
    (get_site_documents sites docTable folder).Perm
      ((docTable.filter (fun d => sites.any
          (fun s => s.site_id == d.site_id && siteMatches folder s))).map
        toDocument) := by
  constructor
  · haveI hT : IsTotal DocRow docRowLeProp := ⟨fun a b => le_total _ _⟩
    haveI hR : IsTrans DocRow docRowLeProp :=
      ⟨fun a b c h1 h2 => le_trans h1 h2⟩
    simp only [get_site_documents]
    exact List.Pairwise.map toDocument (fun a b hab => hab)
      (List.sorted_insertionSort docRowLeProp _)
  · simp only [get_site_documents]
    exact List.Perm.map toDocument (List.perm_insertionSort docRowLeProp _)

/-! Lemmas about upsert and the run loop. -/

/-- Upsert never removes a key from the table. -/
theorem upsert_keyMem_mono (T : List Capture) (row : Capture) (d h : String)
    (hm : keyMem T d h = true) : keyMem (upsert T row).1 d h = true := by
  cases hfc : T.find? (fun x => keyEq x row.document_id row.content_hash) with
  | some c =>
    unfold upsert
    rw [hfc]
    simp only [keyMem, List.any_eq_true] at hm ⊢
    obtain ⟨x, hx, hkx⟩ := hm
    refine ⟨_, List.mem_map_of_mem _ hx, ?_⟩
    dsimp only
    split
    · exact hkx
    · exact hkx
  | none =>
    unfold upsert
    rw [hfc]
    simp only [keyMem, List.any_eq_true] at hm ⊢
    obtain ⟨x, hx, hkx⟩ := hm
    exact ⟨x, List.mem_append_left _ hx, hkx⟩

/-- After upserting a row, its key is in the table. -/
theorem upsert_keyMem_self (T : List Capture) (row : Capture) :
    keyMem (upsert T row).1 row.document_id row.content_hash = true := by
  cases hfc : T.find? (fun x => keyEq x row.document_id row.content_hash) with
  | some c =>
    have hcmem : c ∈ T := List.mem_of_find?_eq_some hfc
    have hck : keyEq c row.document_id row.content_hash = true := by
      have h0 := List.find?_some hfc
      simpa using h0
    unfold upsert
    rw [hfc]
    simp only [keyMem, List.any_eq_true]
    refine ⟨_, List.mem_map_of_mem _ hcmem, ?_⟩
    dsimp only
    rw [if_pos hck]
    exact hck
  | none =>
    unfold upsert
    rw [hfc]
    simp only [keyMem, List.any_eq_true]
    exact ⟨row, List.mem_append_right _ (List.mem_cons_self row []),
      by simp [keyEq]⟩

/-- Upsert preserves the uniqueness invariant. -/
theorem upsert_nodup (T : List Capture) (row : Capture) (hnd : NodupKeys T) :
    NodupKeys (upsert T row).1 := by
  cases hfc : T.find? (fun x => keyEq x row.document_id row.content_hash) with
  | some c =>
    unfold upsert
    rw [hfc]
    refine List.Pairwise.map _ ?_ hnd
    intro a b hab
    dsimp only
    split
    · split
      · exact hab
      · exact hab
    · split
      · exact hab
      · exact hab
  | none =>
    unfold upsert
    rw [hfc]
    dsimp only
    unfold NodupKeys
    rw [List.pairwise_append]
    refine ⟨hnd, List.pairwise_singleton _ _, ?_⟩
    intro x hx y hy
    rcases List.mem_singleton.mp hy with rfl
    have hnx := List.find?_eq_none.mp hfc x hx
    simp only [keyEq, Bool.and_eq_true, beq_iff_eq] at hnx
    exact not_and_or.mp hnx

/-- A row whose key is already present hits the update branch: the
indicator is false and the table size is unchanged. -/
theorem upsert_present_update (T : List Capture) (row : Capture)
    (hm : keyMem T row.document_id row.content_hash = true) :
    (upsert T row).2.2 = false ∧ (upsert T row).1.length = T.length := by
  cases hfc : T.find? (fun x => keyEq x row.document_id row.content_hash) with
  | some c =>
    unfold upsert
    rw [hfc]
    exact ⟨rfl, by simp⟩
  | none =>
    exfalso
    simp only [keyMem, List.any_eq_true] at hm
    obtain ⟨x, hx, hkx⟩ := hm
    exact (List.find?_eq_none.mp hfc x hx) hkx

/-- Unpacking of `fastOkFile`: the mapped locator, the found candidate,
its nonempty identifier, the digest, and the file's fast key. -/
theorem fastOkFile_fastKey (docs : List Document)
    (mapping : List (String × String)) (f : CaptureFile)
    (hf : fastOkFile docs mapping f = true) :
    ∃ u d hv, mapLookup mapping f.stem = some u ∧
      docs.find? (fun x => x.url == u) = some d ∧
      d.document_id ≠ "" ∧
      f.sha256Result = some hv ∧
      fastKey docs mapping f = some (d.document_id, hv) := by
  unfold fastOkFile at hf
  rw [Bool.and_eq_true] at hf
  obtain ⟨hres, hsha⟩ := hf
  cases hlk : mapLookup mapping f.stem with
  | none => rw [hlk] at hres; cases hres
  | some u =>
    rw [hlk] at hres
    dsimp only at hres
    cases hfd : docs.find? (fun d => d.url == u) with
    | none => rw [hfd] at hres; cases hres
    | some d =>
      rw [hfd] at hres
      dsimp only at hres
      cases hsh : f.sha256Result with
      | none => rw [hsh] at hsha; cases hsha
      | some hv =>
        refine ⟨u, d, hv, rfl, hfd, by simpa using hres, rfl, ?_⟩
        unfold fastKey
        rw [hlk, hsh]
        dsimp only
        rw [hfd]
        rfl

/-- One loop step on a fast-resolving file in a wet run: the resolver
takes the fast path, the file hashes, and the loop recurses on the
state extended by the upsert, counting the branch that fired. -/
theorem runSync_cons_fastWet (docs : List Document) (ts : String)
    (f : CaptureFile) (rest : List CaptureFile) (st : RunState)
    (u : String) (d : Document) (hv : String)
    (hlk : mapLookup st.mapping f.stem = some u)
    (hfd : docs.find? (fun x => x.url == u) = some d)
    (hne : d.document_id ≠ "")
    (hsh : f.sha256Result = some hv) :
    runSync docs false ts (f :: rest) st =
      runSync docs false ts rest
        (if (upsert st.table
            (captureRow (st.uuids.headD "") d.document_id ts f.relPath hv)).2.2
         then
          { st with
            table := (upsert st.table (captureRow (st.uuids.headD "")
              d.document_id ts f.relPath hv)).1
            uuids := st.uuids.tail
            dbWrites := st.dbWrites + 1
            inserted := st.inserted + 1 }
         else
          { st with
            table := (upsert st.table (captureRow (st.uuids.headD "")
              d.document_id ts f.relPath hv)).1
            uuids := st.uuids.tail
            dbWrites := st.dbWrites + 1
            updated := st.updated + 1 }) := by
  have hrd : resolve_document f.stem docs st.mapping st.stdin =
      (⟨some d.document_id, .fastPath, st.mapping, false⟩, st.stdin) := by
    simp [resolve_document, hlk, hfd]
  simp only [runSync, hrd, hsh]
  rw [if_neg hne]
  rfl

/-- One loop step on a fast-resolving file whose hashing raises: the
run aborts with the current (fully committed) state. -/
theorem runSync_cons_hashError (docs : List Document) (dry : Bool)
    (ts : String) (f : CaptureFile) (rest : List CaptureFile) (st : RunState)
    (u : String) (d : Document)
    (hlk : mapLookup st.mapping f.stem = some u)
    (hfd : docs.find? (fun x => x.url == u) = some d)
    (hne : d.document_id ≠ "")
    (hsh : f.sha256Result = none) :
    runSync docs dry ts (f :: rest) st = .error (st, f.stem) := by
  have hrd : resolve_document f.stem docs st.mapping st.stdin =
      (⟨some d.document_id, .fastPath, st.mapping, false⟩, st.stdin) := by
    simp [resolve_document, hlk, hfd]
  simp only [runSync, hrd, hsh]
  rw [if_neg hne]
  rfl

/-- One loop step in a dry run on a file that resolves to a nonempty
identifier and hashes: no write happens, the would-be insert is
counted, and the resolver's mapping effects are carried along. -/
theorem runSync_cons_dry (docs : List Document) (ts : String)
    (f : CaptureFile) (rest : List CaptureFile) (st : RunState)
    (r : ResolveOut) (s2 : List String)
    (hpr : resolve_document f.stem docs st.mapping st.stdin = (r, s2))
    (hid : ∃ id, r.result = some id ∧ id ≠ "")
    (hsh : ∃ hv, f.sha256Result = some hv) :
    runSync docs true ts (f :: rest) st =
      runSync docs true ts rest
        { st with
          mapping := r.mapping
          stdin := s2
          mappingSaves := st.mappingSaves + (if r.saved then 1 else 0)
          inserted := st.inserted + 1 } := by
  obtain ⟨id, hres, hne⟩ := hid
  obtain ⟨hv, hs⟩ := hsh
  simp only [runSync, hpr, hres, hs]
  rw [if_neg hne]
  rfl

/-- Main loop invariant for a wet run over fast-resolving files: the
run succeeds, never prompts or skips, leaves the mapping alone, only
grows the set of table keys (adding each file's key), preserves the
uniqueness invariant, performs no insert when every file's key is
already present, and composes with a continuation of the file list. -/
theorem runSync_fastOk (docs : List Document)
    (mapping : List (String × String)) (ts : String) :
    ∀ (files : List CaptureFile) (st : RunState),
      st.mapping = mapping →
      files.all (fastOkFile docs mapping) = true →
      ∃ st', runSync docs false ts files st = .ok st' ∧
        st'.mapping = mapping ∧
        st'.skipped = st.skipped ∧
        st'.stdin = st.stdin ∧
        (∀ dk hk, keyMem st.table dk hk = true → keyMem st'.table dk hk = true) ∧
        (∀ g ∈ files, ∀ dk hk, fastKey docs mapping g = some (dk, hk) →
          keyMem st'.table dk hk = true) ∧
        (NodupKeys st.table → NodupKeys st'.table) ∧
        (files.all (fun g => presentKey st.table docs mapping g) = true →
          st'.inserted = st.inserted ∧ st'.table.length = st.table.length) ∧
        (∀ tail, runSync docs false ts (files ++ tail) st =
          runSync docs false ts tail st') := by
  intro files
  induction files with
  | nil =>
    intro st hm _
    exact ⟨st, rfl, hm, rfl, rfl, fun dk hk hkm => hkm,
      fun g hg => absurd hg (List.not_mem_nil g), fun hnd => hnd,
      fun _ => ⟨rfl, rfl⟩, fun tail => rfl⟩
  | cons f rest ih =>
    intro st hm hall
    rw [List.all_cons, Bool.and_eq_true] at hall
    obtain ⟨hf, hrest⟩ := hall
    obtain ⟨u, d, hv, hlk, hfd, hne, hsh, hfk⟩ :=
      fastOkFile_fastKey docs mapping f hf
    have hlk' : mapLookup st.mapping f.stem = some u := by rw [hm]; exact hlk
    have hstep := runSync_cons_fastWet docs ts f rest st u d hv hlk' hfd hne hsh
    by_cases hup : (upsert st.table
      (captureRow (st.uuids.headD "") d.document_id ts f.relPath hv)).2.2 = true
    · rw [if_pos hup] at hstep
      obtain ⟨st', hrun, hmap', hskip', hstdin', hmono', hkeys', hnd', hpres', happ'⟩ :=
        ih { st with
             table := (upsert st.table (captureRow (st.uuids.headD "")
               d.document_id ts f.relPath hv)).1
             uuids := st.uuids.tail
             dbWrites := st.dbWrites + 1
             inserted := st.inserted + 1 } hm hrest
      refine ⟨st', by rw [hstep]; exact hrun, hmap', hskip', hstdin',
        ?_, ?_, ?_, ?_, ?_⟩
      · intro dk hk hkm
        exact hmono' dk hk (upsert_keyMem_mono st.table _ dk hk hkm)
      · intro g hg dk hk hgk
        rcases List.mem_cons.mp hg with rfl | hg'
        · rw [hfk] at hgk
          have hpair := Option.some.inj hgk
          have h1 : g.stem = g.stem := rfl
          have hdk : d.document_id = dk := congrArg Prod.fst hpair
          have hhk : hv = hk := congrArg Prod.snd hpair
          subst hdk
          subst hhk
          exact hmono' _ _ (upsert_keyMem_self st.table _)
        · exact hkeys' g hg' dk hk hgk
      · intro hndT
        exact hnd' (upsert_nodup st.table _ hndT)
      · intro hpresAll
        exfalso
        rw [List.all_cons, Bool.and_eq_true] at hpresAll
        have hpf := hpresAll.1
        simp only [presentKey, hfk] at hpf
        have hud := (upsert_present_update st.table
          (captureRow (st.uuids.headD "") d.document_id ts f.relPath hv) hpf).1
        rw [hud] at hup
        exact Bool.false_ne_true hup
      · intro tail
        rw [List.cons_append]
        have hstep2 := runSync_cons_fastWet docs ts f (rest ++ tail) st u d hv
          hlk' hfd hne hsh
        rw [if_pos hup] at hstep2
        rw [hstep2]
        exact happ' tail
    · rw [if_neg hup] at hstep
      obtain ⟨st', hrun, hmap', hskip', hstdin', hmono', hkeys', hnd', hpres', happ'⟩ :=
        ih { st with
             table := (upsert st.table (captureRow (st.uuids.headD "")
               d.document_id ts f.relPath hv)).1
             uuids := st.uuids.tail
             dbWrites := st.dbWrites + 1
             updated := st.updated + 1 } hm hrest
      refine ⟨st', by rw [hstep]; exact hrun, hmap', hskip', hstdin',
        ?_, ?_, ?_, ?_, ?_⟩
      · intro dk hk hkm
        exact hmono' dk hk (upsert_keyMem_mono st.table _ dk hk hkm)
      · intro g hg dk hk hgk
        rcases List.mem_cons.mp hg with rfl | hg'
        · rw [hfk] at hgk
          have hpair := Option.some.inj hgk
          have hdk : d.document_id = dk := congrArg Prod.fst hpair
          have hhk : hv = hk := congrArg Prod.snd hpair
          subst hdk
          subst hhk
          exact hmono' _ _ (upsert_keyMem_self st.table _)
        · exact hkeys' g hg' dk hk hgk
      · intro hndT
        exact hnd' (upsert_nodup st.table _ hndT)
      · intro hpresAll
        rw [List.all_cons, Bool.and_eq_true] at hpresAll
        obtain ⟨hpf0, hprest⟩ := hpresAll
        simp only [presentKey, hfk] at hpf0
        have hud := upsert_present_update st.table
          (captureRow (st.uuids.headD "") d.document_id ts f.relPath hv) hpf0
        have hprest' : rest.all (fun g =>
            presentKey (upsert st.table (captureRow (st.uuids.headD "")
              d.document_id ts f.relPath hv)).1 docs mapping g) = true := by
          rw [List.all_eq_true] at hprest ⊢
          intro g hg
          have hgp := hprest g hg
          unfold presentKey at hgp ⊢
          cases hgk : fastKey docs mapping g with
          | none => rfl
          | some k =>
            rw [hgk] at hgp
            dsimp only at hgp ⊢
            exact upsert_keyMem_mono st.table _ k.1 k.2 hgp
        obtain ⟨hins, hlen⟩ := hpres' hprest'
        constructor
        · rw [hins]
        · rw [hlen]
          exact hud.2
      · intro tail
        rw [List.cons_append]
        have hstep2 := runSync_cons_fastWet docs ts f (rest ++ tail) st u d hv
          hlk' hfd hne hsh
        rw [if_neg hup] at hstep2
        rw [hstep2]
        exact happ' tail

/-- C1: over a file set in which every stem is already mapped to a
current candidate (and hashing succeeds), a wet run succeeds; starting
from a table satisfying the per-(document, digest) uniqueness
invariant, both the first and the second run preserve it; and the
second run over the identical unchanged file set performs zero inserts
and no skips, leaving the total record count unchanged — every file
hits the update branch. -/
theorem sync_idempotent (docs : List Document)
    (mapping : List (String × String)) (ts1 ts2 : String)
    (T0 : List Capture) (files : List CaptureFile)
    (stdin1 stdin2 uuids1 uuids2 : List String)
    (hfast : files.all (fastOkFile docs mapping) = true)
    (hnd : NodupKeys T0) :
    ∃ st1 st2,
      runSync docs false ts1 files (initState mapping T0 stdin1 uuids1) =
        .ok st1 ∧
      runSync docs false ts2 files (initState mapping st1.table stdin2 uuids2) =
        .ok st2 ∧
      st2.inserted = 0 ∧
      st2.skipped = 0 ∧
      st2.table.length = st1.table.length ∧
      NodupKeys st1.table ∧ NodupKeys st2.table ∧
      st1.mapping = mapping ∧ st2.mapping = mapping := by
  obtain ⟨st1, hrun1, hmap1, hskip1, hstdin1, hmono1, hkeys1, hnd1, hpres1, happ1⟩ :=
    runSync_fastOk docs mapping ts1 files (initState mapping T0 stdin1 uuids1)
      rfl hfast
  have hnd1' : NodupKeys st1.table := hnd1 hnd
  have hpres : files.all (fun g => presentKey st1.table docs mapping g) = true := by
    rw [List.all_eq_true]
    intro g hg
    unfold presentKey
    cases hgk : fastKey docs mapping g with
    | none => rfl
    | some k =>
      dsimp only
      exact hkeys1 g hg k.1 k.2 (by rw [hgk])
  obtain ⟨st2, hrun2, hmap2, hskip2, hstdin2, hmono2, hkeys2, hnd2, hpres2, happ2⟩ :=
    runSync_fastOk docs mapping ts2 files
      (initState mapping st1.table stdin2 uuids2) rfl hfast
  obtain ⟨hins, hlen⟩ := hpres2 hpres
  exact ⟨st1, st2, hrun1, hrun2, hins, hskip2, hlen, hnd1', hnd2 hnd1',
    hmap1, hmap2⟩

/-- Witness for C1: one mapped file over an empty table — the first
run inserts, the second run over the same file set inserts nothing. -/
theorem sync_idempotent_witness :
    ∃ st1 st2,
      runSync [⟨"D", "https://e.org/0", none, none⟩] false "t1"
          [⟨"a", "p", some "H"⟩]
          (initState [("a", "https://e.org/0")] [] [] ["id1"]) = .ok st1 ∧
      runSync [⟨"D", "https://e.org/0", none, none⟩] false "t2"
          [⟨"a", "p", some "H"⟩]
          (initState [("a", "https://e.org/0")] st1.table [] ["id2"]) =
        .ok st2 ∧
      st2.inserted = 0 ∧
      st2.skipped = 0 ∧
      st2.table.length = st1.table.length ∧
      NodupKeys st1.table ∧ NodupKeys st2.table ∧
      st1.mapping = [("a", "https://e.org/0")] ∧
      st2.mapping = [("a", "https://e.org/0")] :=
  sync_idempotent [⟨"D", "https://e.org/0", none, none⟩]
    [("a", "https://e.org/0")] "t1" "t2" [] [⟨"a", "p", some "H"⟩]
    [] [] ["id1"] ["id2"] (by decide) (by decide)

/-- C3 counterexample: two mapped files; the first file's hashing
raises. The run does not continue with the second file: it returns the
abort outcome, the second file's record was never written (the
committed table is still empty), and the failure is not recorded in the
skipped counter. -/
theorem hash_error_aborts_run_counterexample :
    runSync [⟨"D1", "https://e.org/1", none, none⟩,
        ⟨"D2", "https://e.org/2", none, none⟩] false "t"
      [⟨"f1", "p1", none⟩, ⟨"f2", "p2", some "H2"⟩]
      (initState [("f1", "https://e.org/1"), ("f2", "https://e.org/2")]
        [] [] ["id1", "id2"]) =
      .error (initState [("f1", "https://e.org/1"), ("f2", "https://e.org/2")]
        [] [] ["id1", "id2"], "f1") ∧
    keyMem (initState [("f1", "https://e.org/1"), ("f2", "https://e.org/2")]
        [] [] ["id1", "id2"]).table "D2" "H2" = false ∧
    (initState [("f1", "https://e.org/1"), ("f2", "https://e.org/2")]
        [] [] ["id1", "id2"]).skipped = 0 :=
  ⟨rfl, rfl, rfl⟩

/-- C3 amended: when a file's hashing raises an I/O error, the
exception reaches the run-level handler and the whole run aborts
(non-zero exit): remaining files are not processed and the failure is
not counted as a skip; but per-file commits mean previously committed
work is preserved — every key inserted for the earlier files, and
every key of the starting table, is still in the committed table
carried by the abort outcome, and mapping state is intact. -/
theorem hash_error_aborts_run_amended (docs : List Document)
    (mapping : List (String × String)) (ts : String) (T0 : List Capture)
    (stdin uuids : List String) (pre rest : List CaptureFile)
    (f : CaptureFile) (u : String) (d : Document)
    (hpre : pre.all (fastOkFile docs mapping) = true)
    (hlk : mapLookup mapping f.stem = some u)
    (hfd : docs.find? (fun x => x.url == u) = some d)
    (hne : d.document_id ≠ "")
    (hsh : f.sha256Result = none) :
    ∃ st1, runSync docs false ts (pre ++ f :: rest)
        (initState mapping T0 stdin uuids) = .error (st1, f.stem) ∧
      st1.skipped = 0 ∧
      st1.mapping = mapping ∧
      (∀ dk hk, keyMem T0 dk hk = true → keyMem st1.table dk hk = true) ∧
      (∀ g ∈ pre, ∀ dk hk, fastKey docs mapping g = some (dk, hk) →
        keyMem st1.table dk hk = true) := by
  obtain ⟨st1, hrun1, hmap1, hskip1, hstdin1, hmono1, hkeys1, hnd1, hpres1, happ1⟩ :=
    runSync_fastOk docs mapping ts pre (initState mapping T0 stdin uuids)
      rfl hpre
  have hlk1 : mapLookup st1.mapping f.stem = some u := by
    rw [hmap1]; exact hlk
  refine ⟨st1, ?_, hskip1, hmap1, hmono1, hkeys1⟩
  rw [happ1 (f :: rest)]
  exact runSync_cons_hashError docs false ts f rest st1 u d hlk1 hfd hne hsh

/-- Witness for the amended C3: one successful file precedes the
failing one; its committed record survives the abort. -/
theorem hash_error_aborts_run_amended_witness :
    ∃ st1, runSync [⟨"D1", "https://e.org/1", none, none⟩,
        ⟨"D2", "https://e.org/2", none, none⟩] false "t"
        ([⟨"f1", "p1", some "H1"⟩] ++ [⟨"f2", "p2", none⟩])
        (initState [("f1", "https://e.org/1"), ("f2", "https://e.org/2")]
          [] [] ["id1", "id2"]) = .error (st1, "f2") ∧
      st1.skipped = 0 ∧
      st1.mapping = [("f1", "https://e.org/1"), ("f2", "https://e.org/2")] ∧
      (∀ dk hk, keyMem [] dk hk = true → keyMem st1.table dk hk = true) ∧
      (∀ g ∈ [(⟨"f1", "p1", some "H1"⟩ : CaptureFile)], ∀ dk hk,
        fastKey [⟨"D1", "https://e.org/1", none, none⟩,
          ⟨"D2", "https://e.org/2", none, none⟩]
          [("f1", "https://e.org/1"), ("f2", "https://e.org/2")] g =
            some (dk, hk) →
        keyMem st1.table dk hk = true) := by
  have h := hash_error_aborts_run_amended
    [⟨"D1", "https://e.org/1", none, none⟩, ⟨"D2", "https://e.org/2", none, none⟩]
    [("f1", "https://e.org/1"), ("f2", "https://e.org/2")] "t" [] [] ["id1", "id2"]
    [⟨"f1", "p1", some "H1"⟩] [] ⟨"f2", "p2", none⟩ "https://e.org/2"
    ⟨"D2", "https://e.org/2", none, none⟩ (by decide) (by decide) (by decide)
    (by decide) rfl
  obtain ⟨st1, h1, h2, h3, h4, h5⟩ := h
  exact ⟨st1, h1, h2, h3, h4, fun g hg => h5 g hg⟩

/-- C7: a dry run over files that all resolve (to a nonempty
identifier, hashing cleanly) succeeds, leaves the capture table, the
write counter, and the uuid stream untouched, skips nothing, updates
nothing, and reports one would-be insert per file; the mapping and the
count of mapping-file saves evolve exactly as the resolutions alone
dictate, so interactive mapping decisions made during the dry run are
persisted. -/
theorem dry_run_purity (docs : List Document) (ts : String) :
    ∀ (files : List CaptureFile) (st : RunState),
      allResolvable docs files st.mapping st.stdin = true →
      ∃ st', runSync docs true ts files st = .ok st' ∧
        st'.table = st.table ∧
        st'.dbWrites = st.dbWrites ∧
        st'.uuids = st.uuids ∧
        st'.inserted = st.inserted + files.length ∧
        st'.skipped = st.skipped ∧
        st'.updated = st.updated ∧
        st'.mapping = (resolveFold docs files st.mapping st.stdin).1 ∧
        st'.mappingSaves =
          st.mappingSaves + (resolveFold docs files st.mapping st.stdin).2.1 := by
  intro files
  induction files with
  | nil =>
    intro st _
    exact ⟨st, rfl, rfl, rfl, rfl, rfl, rfl, rfl, rfl, rfl⟩
  | cons f rest ih =>
    intro st hall
    cases hpr : resolve_document f.stem docs st.mapping st.stdin with
    | mk r s2 =>
      simp only [allResolvable, hpr] at hall
      rw [Bool.and_eq_true, Bool.and_eq_true] at hall
      obtain ⟨⟨hres, hsha⟩, hrest⟩ := hall
      cases hid : r.result with
      | none => rw [hid] at hres; cases hres
      | some id =>
        rw [hid] at hres
        dsimp only at hres
        have hne : id ≠ "" := by simpa using hres
        cases hsh2 : f.sha256Result with
        | none => rw [hsh2] at hsha; cases hsha
        | some hv =>
          rw [runSync_cons_dry docs ts f rest st r s2 hpr ⟨id, hid, hne⟩
            ⟨hv, hsh2⟩]
          obtain ⟨st', hrun, htab, hdbw, huu, hins, hskip, hupd, hmapf, hsav⟩ :=
            ih { st with
                 mapping := r.mapping
                 stdin := s2
                 mappingSaves := st.mappingSaves + (if r.saved then 1 else 0)
                 inserted := st.inserted + 1 }
              (by dsimp only; exact hrest)
          refine ⟨st', hrun, htab, hdbw, huu, ?_, hskip, hupd, ?_, ?_⟩
          · rw [hins]
            dsimp only
            simp only [List.length_cons]
            omega
          · rw [hmapf]
            dsimp only
            simp only [resolveFold, hpr]
          · rw [hsav]
            dsimp only
            simp only [resolveFold, hpr]
            omega

/-- Witness for C7: one unmapped file resolved interactively with
input `0` during a dry run — the table stays empty, one would-be
insert is reported, and the new mapping entry is made and saved. -/
theorem dry_run_purity_witness :
    ∃ st', runSync [⟨"D", "https://e.org/0", none, none⟩] true "t"
        [⟨"x", "p", some "H"⟩] (initState [] [] ["0"] ["id1"]) = .ok st' ∧
      st'.table = (initState ([] : List (String × String)) [] ["0"]
        ["id1"]).table ∧
      st'.dbWrites = (initState ([] : List (String × String)) [] ["0"]
        ["id1"]).dbWrites ∧
      st'.uuids = (initState ([] : List (String × String)) [] ["0"]
        ["id1"]).uuids ∧
      st'.inserted = (initState ([] : List (String × String)) [] ["0"]
        ["id1"]).inserted + 1 ∧
      st'.skipped = (initState ([] : List (String × String)) [] ["0"]
        ["id1"]).skipped ∧
      st'.updated = (initState ([] : List (String × String)) [] ["0"]
        ["id1"]).updated ∧
      st'.mapping = (resolveFold [⟨"D", "https://e.org/0", none, none⟩]
        [⟨"x", "p", some "H"⟩] [] ["0"]).1 ∧
      st'.mappingSaves = (initState ([] : List (String × String)) [] ["0"]
        ["id1"]).mappingSaves + (resolveFold
          [⟨"D", "https://e.org/0", none, none⟩]
          [⟨"x", "p", some "H"⟩] [] ["0"]).2.1 :=
  dry_run_purity [⟨"D", "https://e.org/0", none, none⟩] "t"
    [⟨"x", "p", some "H"⟩] (initState [] [] ["0"] ["id1"]) (by decide)
